import Mathlib

set_option maxHeartbeats 1000000

/-!
A shallow embedding of the varifold-based local curvature estimator of this
repository: the radial kernel family (`RadialDistance`), the tangent-plane
`projection`, the per-sample estimator loop of `computeLocalCurvature`
(restricted to the estimator loop over the selector-supplied
`positions`/`normals` arrays, which the surrounding method dispatch fills
from the external mesh library), and the in-place sign-correction loop of
`main`. Machine doubles are modelled as exact real numbers.
-/

/-- Kernel family selector (`DistributionType` in the source). -/
inductive DistributionType
  | FlatDisc
  | Cone
  | HalfSphere
deriving DecidableEq

/-- Kernel weight profile `measureFunction`, as set up by the `RadialDistance`
constructor for each distribution kind. -/
noncomputable def measureFunction : DistributionType → ℝ → ℝ
  | DistributionType.FlatDisc, _ => 3 / (4 * Real.pi)
  | DistributionType.Cone, dRatio => (1 - dRatio) * Real.pi / 12
  | DistributionType.HalfSphere, dRatio => (1 - dRatio * dRatio) / (Real.pi * 2)

/-- Kernel derivative profile `measureFunctionDerivate`, as set up by the
`RadialDistance` constructor for each distribution kind. -/
noncomputable def measureFunctionDerivate : DistributionType → ℝ → ℝ
  | DistributionType.FlatDisc, _ => 0
  | DistributionType.Cone, _ => -Real.pi / 12
  | DistributionType.HalfSphere, dRatio => -dRatio / Real.pi

/-- A 3D real vector (DGtal `RealPoint`/`RealVector`). -/
structure V3 where
  x : ℝ
  y : ℝ
  z : ℝ

/-- The zero vector (`RealVector()` default constructor). -/
noncomputable def V3.zero : V3 := ⟨0, 0, 0⟩

/-- Componentwise vector addition. -/
noncomputable def V3.add (u v : V3) : V3 := ⟨u.x + v.x, u.y + v.y, u.z + v.z⟩

/-- Componentwise vector subtraction. -/
noncomputable def V3.sub (u v : V3) : V3 := ⟨u.x - v.x, u.y - v.y, u.z - v.z⟩

/-- Scalar multiplication of a vector. -/
noncomputable def V3.smul (c : ℝ) (v : V3) : V3 := ⟨c * v.x, c * v.y, c * v.z⟩

/-- Division of a vector by a scalar (componentwise, as DGtal does). -/
noncomputable def V3.divScalar (v : V3) (c : ℝ) : V3 := ⟨v.x / c, v.y / c, v.z / c⟩

/-- Vector negation. -/
noncomputable def V3.neg (v : V3) : V3 := ⟨-v.x, -v.y, -v.z⟩

/-- Dot product (`RealVector::dot`). -/
noncomputable def V3.dot (u v : V3) : ℝ := u.x * v.x + u.y * v.y + u.z * v.z

/-- Squared Euclidean norm (`RealVector::squaredNorm`). -/
noncomputable def V3.squaredNorm (v : V3) : ℝ := v.dot v

/-- Euclidean norm (`RealVector::norm`). -/
noncomputable def V3.norm (v : V3) : ℝ := Real.sqrt v.squaredNorm

noncomputable instance : Zero V3 := ⟨V3.zero⟩

noncomputable instance : Add V3 := ⟨V3.add⟩

noncomputable instance : AddCommMonoid V3 where
  add := (· + ·)
  zero := 0
  add_assoc := fun a b c => by
    cases a; cases b; cases c
    show V3.add (V3.add _ _) _ = V3.add _ (V3.add _ _)
    simp only [V3.add, V3.mk.injEq]
    refine ⟨by ring, by ring, by ring⟩
  zero_add := fun a => by
    cases a
    show V3.add V3.zero _ = _
    simp [V3.add, V3.zero]
  add_zero := fun a => by
    cases a
    show V3.add _ V3.zero = _
    simp [V3.add, V3.zero]
  add_comm := fun a b => by
    cases a; cases b
    show V3.add _ _ = V3.add _ _
    simp only [V3.add, V3.mk.injEq]
    refine ⟨by ring, by ring, by ring⟩
  nsmul := nsmulRec
  nsmul_zero := fun _ => rfl
  nsmul_succ := fun _ _ => rfl

/-- Projection of `toProject` onto the plane orthogonal to `planeNormal`
(the source's `projection` function). -/
noncomputable def projection (toProject planeNormal : V3) : V3 :=
  V3.sub toProject
    (V3.smul (V3.dot toProject planeNormal / V3.squaredNorm planeNormal) planeNormal)

/-- The weight/derivative pair list computed by `RadialDistance::operator()`
over a list of sample positions: inside the open ball of `radius` around
`center` the kernel profiles are evaluated at `d / radius`, outside (including
on the boundary) the pair is `(0, 0)`. -/
noncomputable def radialWeights (center : V3) (radius : ℝ) (kind : DistributionType)
    (mesh : List V3) : List (ℝ × ℝ) :=
  mesh.map fun b =>
    if (V3.sub b center).norm < radius then
      (measureFunction kind ((V3.sub b center).norm / radius),
       measureFunctionDerivate kind ((V3.sub b center).norm / radius))
    else (0, 0)

/-- One iteration of the inner accumulation loop of `computeLocalCurvature`:
the accumulator is the pair `(tmpSumTop, tmpSumBottom)`. -/
noncomputable def curvatureStep (positions normals : List V3) (b : V3)
    (weights : List (ℝ × ℝ)) (f : ℕ) (acc : V3 × ℝ) (otherF : ℕ) : V3 × ℝ :=
  if (weights.getD otherF (0, 0)).1 > 0 then
    if f ≠ otherF then
      (V3.add acc.1
        ((V3.smul (weights.getD otherF (0, 0)).1
            (projection (V3.sub (positions.getD otherF V3.zero) b)
              (normals.getD otherF V3.zero))).divScalar
          (V3.sub (positions.getD otherF V3.zero) b).norm),
       acc.2 + (weights.getD otherF (0, 0)).1)
    else (acc.1, acc.2 + (weights.getD otherF (0, 0)).1)
  else acc

/-- The curvature vector computed by the body of the outer loop of
`computeLocalCurvature` for sample index `f`. -/
noncomputable def curvatureAt (positions normals : List V3) (cRadius : ℝ)
    (kind : DistributionType) (f : ℕ) : V3 :=
  let b := positions.getD f V3.zero
  let weights := radialWeights b cRadius kind positions
  let acc := (List.range positions.length).foldl
    (curvatureStep positions normals b weights f) (V3.zero, 0)
  (V3.neg acc.1).divScalar (acc.2 * cRadius)

/-- The estimator loop of `computeLocalCurvature` (source lines 180-196): one
curvature vector per sample, over the selector-supplied index-aligned
`positions` and `normals` arrays. -/
noncomputable def computeLocalCurvature (positions normals : List V3) (cRadius : ℝ)
    (kind : DistributionType) : List V3 :=
  (List.range positions.length).map (curvatureAt positions normals cRadius kind)

/-- The claim-side weight of sample `g` seen from sample `f`:
`weight(dist(position f, position g) / R)`, clamped to `0` outside the open
ball as the caller (`RadialDistance::operator()`) does. -/
noncomputable def weightOf (positions : List V3) (R : ℝ) (kind : DistributionType)
    (f g : ℕ) : ℝ :=
  if (V3.sub (positions.getD f V3.zero) (positions.getD g V3.zero)).norm < R then
    measureFunction kind
      ((V3.sub (positions.getD f V3.zero) (positions.getD g V3.zero)).norm / R)
  else 0

/-- Numerator contribution of sample `g` to the curvature of sample `f`:
`w * proj(position g - position f, normal g) / dist(position g, position f)`
when `w > 0` and `g` is distinct from `f`, zero otherwise. -/
noncomputable def curvatureTerm (positions normals : List V3) (R : ℝ)
    (kind : DistributionType) (f g : ℕ) : V3 :=
  if 0 < weightOf positions R kind f g ∧ g ≠ f then
    (V3.smul (weightOf positions R kind f g)
        (projection (V3.sub (positions.getD g V3.zero) (positions.getD f V3.zero))
          (normals.getD g V3.zero))).divScalar
      (V3.sub (positions.getD g V3.zero) (positions.getD f V3.zero)).norm
  else V3.zero

/-- Denominator contribution of sample `g` to the curvature of sample `f`:
`w` when `w > 0` (including `g = f`), zero otherwise. -/
noncomputable def weightTerm (positions : List V3) (R : ℝ) (kind : DistributionType)
    (f g : ℕ) : ℝ :=
  if 0 < weightOf positions R kind f g then weightOf positions R kind f g else 0

/-- The closed-form numerator of the curvature estimator at sample `f`. -/
noncomputable def specNumerator (positions normals : List V3) (R : ℝ)
    (kind : DistributionType) (f : ℕ) : V3 :=
  ∑ g ∈ Finset.range positions.length, curvatureTerm positions normals R kind f g

/-- The closed-form denominator of the curvature estimator at sample `f`. -/
noncomputable def specDenominator (positions : List V3) (R : ℝ)
    (kind : DistributionType) (f : ℕ) : ℝ :=
  ∑ g ∈ Finset.range positions.length, weightTerm positions R kind f g

/-- One iteration of the in-place sign-correction loop of `main`: the scalar
field `lcsNorm` is updated at index `i` using the current (partially
corrected) values at the other indices whose inclusion ratio is positive. -/
noncomputable def signCorrectStep (incl : ℕ → ℕ → ℝ) (n : ℕ) (lcsNorm : List ℝ)
    (i : ℕ) : List ℝ :=
  lcsNorm.set i (|lcsNorm.getD i 0| *
    if ((List.range n).foldl
        (fun s f => if f ≠ i ∧ 0 < incl i f then s + lcsNorm.getD f 0 else s) 0) < 0
    then -1 else 1)

/-- The full in-place sign-correction pass of `main` over the naive signed
curvature values, with `incl i f` the externally supplied inclusion ratio of
element `f` in the 1-ring of element `i`. -/
noncomputable def correctSigns (incl : ℕ → ℕ → ℝ) (naive : List ℝ) : List ℝ :=
  (List.range naive.length).foldl (signCorrectStep incl naive.length) naive

/-- The state of the sign-correction pass after the first `k` iterations. -/
noncomputable def stateAfter (incl : ℕ → ℕ → ℝ) (naive : List ℝ) (k : ℕ) : List ℝ :=
  (List.range k).foldl (signCorrectStep incl naive.length) naive

/-- The neighbor sum the claim attributes to the sign correction: the
inclusion-weighted sum of the naive signed values over the neighbors of `i`. -/
noncomputable def claimNeighborSum (incl : ℕ → ℕ → ℝ) (naive : List ℝ) (i : ℕ) : ℝ :=
  ∑ g ∈ Finset.range naive.length,
    if g ≠ i ∧ 0 < incl i g then incl i g * naive.getD g 0 else 0

/-- The corrected value the claim attributes to the sign correction. -/
noncomputable def claimCorrected (incl : ℕ → ℕ → ℝ) (naive : List ℝ) (i : ℕ) : ℝ :=
  |naive.getD i 0| * if claimNeighborSum incl naive i < 0 then -1 else 1

/-- The neighbor sum the code actually uses at index `i`: already-corrected
values for neighbors with smaller index, naive values for larger ones,
unweighted, gated by a positive inclusion ratio. -/
noncomputable def mixedNeighborSum (incl : ℕ → ℕ → ℝ) (naive : List ℝ) (i : ℕ) : ℝ :=
  ∑ g ∈ Finset.range naive.length,
    if g ≠ i ∧ 0 < incl i g then
      (if g < i then (correctSigns incl naive).getD g 0 else naive.getD g 0)
    else 0

/-- The inclusion-ratio function of the sign-correction counterexample. -/
noncomputable def inclEx (i f : ℕ) : ℝ := if i = 2 ∧ f = 0 then 3 else 1

/-- The five coplanar sample positions of the flat-plane scenario. -/
noncomputable def planePts : List V3 :=
  [⟨0, 0, 0⟩, ⟨1, 0, 0⟩, ⟨0, 1, 0⟩, ⟨-1, 0, 0⟩, ⟨0, -1, 0⟩]

/-- The five identical normals `(0,0,1)` of the flat-plane scenario. -/
noncomputable def planeNs : List V3 :=
  [⟨0, 0, 1⟩, ⟨0, 0, 1⟩, ⟨0, 0, 1⟩, ⟨0, 0, 1⟩, ⟨0, 0, 1⟩]

theorem V3.zero_def : (0 : V3) = V3.zero := rfl

theorem V3.add_def (u v : V3) : u + v = V3.add u v := rfl

theorem V3.add_zero_right (u : V3) : V3.add u V3.zero = u := by
  cases u; simp [V3.add, V3.zero]

theorem V3.zero_add_left (u : V3) : V3.add V3.zero u = u := by
  cases u; simp [V3.add, V3.zero]

theorem V3.sub_self (u : V3) : V3.sub u u = V3.zero := by
  cases u; simp [V3.sub, V3.zero]

theorem V3.zero_squaredNorm : V3.squaredNorm V3.zero = 0 := by
  simp [V3.squaredNorm, V3.dot, V3.zero]

theorem V3.zero_norm : V3.norm V3.zero = 0 := by
  simp [V3.norm, V3.zero_squaredNorm]

theorem V3.norm_sub_comm (u v : V3) : (V3.sub u v).norm = (V3.sub v u).norm := by
  cases u; cases v
  simp only [V3.norm, V3.squaredNorm, V3.dot, V3.sub]
  congr 1
  ring

theorem V3.norm_nonneg (v : V3) : 0 ≤ v.norm := Real.sqrt_nonneg _

theorem getD_map_lt {α β : Type} (F : α → β) (l : List α) (i : ℕ) (hi : i < l.length)
    (d : β) (d2 : α) : (l.map F).getD i d = F (l.getD i d2) := by
  rw [List.getD_eq_getElem (l.map F) d (by simpa using hi),
    List.getD_eq_getElem l d2 hi]
  simp

theorem radialWeights_getD (positions : List V3) (R : ℝ) (kind : DistributionType)
    (f g : ℕ) (hg : g < positions.length) :
    ((radialWeights (positions.getD f V3.zero) R kind positions).getD g (0, 0)).1
      = weightOf positions R kind f g := by
  unfold radialWeights weightOf
  rw [getD_map_lt _ _ _ hg _ V3.zero, V3.norm_sub_comm]
  split <;> rfl

theorem curvatureStep_eq (positions normals : List V3) (R : ℝ) (kind : DistributionType)
    (f g : ℕ) (hg : g < positions.length) (acc : V3 × ℝ) :
    curvatureStep positions normals (positions.getD f V3.zero)
        (radialWeights (positions.getD f V3.zero) R kind positions) f acc g
      = (V3.add acc.1 (curvatureTerm positions normals R kind f g),
         acc.2 + weightTerm positions R kind f g) := by
  unfold curvatureStep curvatureTerm weightTerm
  rw [radialWeights_getD positions R kind f g hg]
  by_cases hw : 0 < weightOf positions R kind f g
  · by_cases hfg : f = g
    · subst hfg
      simp [hw, V3.add_zero_right]
    · have hgf : g ≠ f := fun h => hfg h.symm
      simp [hw, hfg, hgf]
  · simp [hw, V3.add_zero_right]

theorem foldl_curvatureStep (positions normals : List V3) (R : ℝ) (kind : DistributionType)
    (f : ℕ) (l : List ℕ) (hl : ∀ g ∈ l, g < positions.length) (A : V3) (B : ℝ) :
    l.foldl (curvatureStep positions normals (positions.getD f V3.zero)
        (radialWeights (positions.getD f V3.zero) R kind positions) f) (A, B)
      = (V3.add A (l.map (curvatureTerm positions normals R kind f)).sum,
         B + (l.map (weightTerm positions R kind f)).sum) := by
  induction l generalizing A B with
  | nil => simp [V3.zero_def, V3.add_zero_right]
  | cons g tail ih =>
      rw [List.foldl_cons,
        curvatureStep_eq positions normals R kind f g (hl g (by simp)) (A, B)]
      rw [ih (fun x hx => hl x (by simp [hx]))]
      simp only [List.map_cons, List.sum_cons, Prod.mk.injEq]
      refine ⟨?_, by ring⟩
      simp only [← V3.add_def]
      exact add_assoc A _ _

theorem sum_map_range {M : Type} [AddCommMonoid M] (g : ℕ → M) (n : ℕ) :
    ((List.range n).map g).sum = ∑ i ∈ Finset.range n, g i := by
  induction n with
  | zero => simp
  | succ k ih =>
      rw [List.range_succ, List.map_append, List.sum_append, Finset.sum_range_succ, ih]
      simp

theorem curvatureAt_eq (positions normals : List V3) (R : ℝ) (kind : DistributionType)
    (f : ℕ) :
    curvatureAt positions normals R kind f
      = (V3.neg (specNumerator positions normals R kind f)).divScalar
          (specDenominator positions R kind f * R) := by
  simp only [curvatureAt, specNumerator, specDenominator]
  rw [foldl_curvatureStep positions normals R kind f (List.range positions.length)
      (fun g hg => List.mem_range.mp hg) V3.zero 0]
  rw [sum_map_range, sum_map_range, V3.zero_add_left, zero_add]

theorem computeLocalCurvature_getD (positions normals : List V3) (R : ℝ)
    (kind : DistributionType) (f : ℕ) (hf : f < positions.length) :
    (computeLocalCurvature positions normals R kind).getD f V3.zero
      = curvatureAt positions normals R kind f := by
  unfold computeLocalCurvature
  rw [getD_map_lt _ _ _ (by simpa using hf) _ 0]
  congr 1
  rw [List.getD_eq_getElem _ _ (by simpa using hf)]
  exact List.getElem_range _ (by simpa using hf)

/-- Claim C1: for every sample `f` (positions and normals fixed, radius `R > 0`)
the estimator returns `curvature[f]` equal to minus the sum, over samples
`g ≠ f` with positive weight, of `w_g · proj(pos g − pos f, normal g) / dist`,
divided by `D · R`, where `D` sums the positive weights including `g = f`. -/
theorem C1_curvature_formula (positions normals : List V3) (R : ℝ)
    (kind : DistributionType) (f : ℕ) (hR : 0 < R) (hf : f < positions.length) :
    (computeLocalCurvature positions normals R kind).getD f V3.zero
      = (V3.neg (specNumerator positions normals R kind f)).divScalar
          (specDenominator positions R kind f * R) := by
  rw [computeLocalCurvature_getD positions normals R kind f hf, curvatureAt_eq]

/-- Witness for C1 at a concrete one-sample input. -/
theorem C1_curvature_formula_witness :
    (0 : ℝ) < 1 ∧ 0 < [V3.zero].length ∧
      (computeLocalCurvature [V3.zero] [(⟨0, 0, 1⟩ : V3)] 1
          DistributionType.FlatDisc).getD 0 V3.zero
        = (V3.neg (specNumerator [V3.zero] [(⟨0, 0, 1⟩ : V3)] 1
              DistributionType.FlatDisc 0)).divScalar
            (specDenominator [V3.zero] 1 DistributionType.FlatDisc 0 * 1) :=
  ⟨by norm_num, by simp,
    C1_curvature_formula [V3.zero] [(⟨0, 0, 1⟩ : V3)] 1 DistributionType.FlatDisc 0
      (by norm_num) (by simp)⟩

/-- Claim C2: on `[0,1)` the three kernel profiles take exactly the closed
forms of the spec: flat disc `3/(4π)` with derivative `0`, cone `(1−t)·π/12`
with derivative `−π/12`, half sphere `(1−t²)/(2π)` with derivative `−t/π`. -/
theorem C2_kernel_closed_forms (t : ℝ) (h0 : 0 ≤ t) (h1 : t < 1) :
    measureFunction DistributionType.FlatDisc t = 3 / (4 * Real.pi)
    ∧ measureFunctionDerivate DistributionType.FlatDisc t = 0
    ∧ measureFunction DistributionType.Cone t = (1 - t) * Real.pi / 12
    ∧ measureFunctionDerivate DistributionType.Cone t = -(Real.pi / 12)
    ∧ measureFunction DistributionType.HalfSphere t = (1 - t ^ 2) / (2 * Real.pi)
    ∧ measureFunctionDerivate DistributionType.HalfSphere t = -(t / Real.pi) := by
  refine ⟨rfl, rfl, rfl, by simp [measureFunctionDerivate, neg_div], ?_,
    by simp [measureFunctionDerivate, neg_div]⟩
  simp only [measureFunction]
  ring

/-- Witness for C2 at `t = 1/2`. -/
theorem C2_kernel_closed_forms_witness :
    (0 : ℝ) ≤ 1 / 2 ∧ (1 : ℝ) / 2 < 1 ∧
      (measureFunction DistributionType.FlatDisc (1 / 2) = 3 / (4 * Real.pi)
      ∧ measureFunctionDerivate DistributionType.FlatDisc (1 / 2) = 0
      ∧ measureFunction DistributionType.Cone (1 / 2) = (1 - 1 / 2) * Real.pi / 12
      ∧ measureFunctionDerivate DistributionType.Cone (1 / 2) = -(Real.pi / 12)
      ∧ measureFunction DistributionType.HalfSphere (1 / 2)
          = (1 - (1 / 2 : ℝ) ^ 2) / (2 * Real.pi)
      ∧ measureFunctionDerivate DistributionType.HalfSphere (1 / 2)
          = -((1 / 2 : ℝ) / Real.pi)) :=
  ⟨by norm_num, by norm_num,
    C2_kernel_closed_forms (1 / 2) (by norm_num) (by norm_num)⟩

/-- Claim C4: for radius `R > 0`, a candidate sample receives a nonzero kernel
evaluation only when its distance `d` to the kernel center satisfies `d < R`
(strict, ties at `d = R` excluded), and for `d ≥ R` the returned pair is
exactly `(0, 0)`. -/
theorem C4_strict_ball (center : V3) (R : ℝ) (kind : DistributionType)
    (mesh : List V3) (g : ℕ) (hR : 0 < R) (hg : g < mesh.length) :
    (R ≤ (V3.sub (mesh.getD g V3.zero) center).norm →
        (radialWeights center R kind mesh).getD g (0, 0) = (0, 0))
    ∧ ((radialWeights center R kind mesh).getD g (0, 0) ≠ (0, 0) →
        (V3.sub (mesh.getD g V3.zero) center).norm < R) := by
  unfold radialWeights
  rw [getD_map_lt _ _ _ hg _ V3.zero]
  constructor
  · intro h
    rw [if_neg (not_lt.mpr h)]
  · intro h
    by_contra hc
    exact h (by rw [if_neg hc])

/-- Witness for C4 at a concrete out-of-ball sample. -/
theorem C4_strict_ball_witness :
    (0 : ℝ) < 1 ∧ 0 < [(⟨10, 0, 0⟩ : V3)].length ∧
      ((1 : ℝ) ≤ (V3.sub ([(⟨10, 0, 0⟩ : V3)].getD 0 V3.zero) V3.zero).norm →
          (radialWeights V3.zero 1 DistributionType.FlatDisc
            [(⟨10, 0, 0⟩ : V3)]).getD 0 (0, 0) = (0, 0))
      ∧ ((radialWeights V3.zero 1 DistributionType.FlatDisc
            [(⟨10, 0, 0⟩ : V3)]).getD 0 (0, 0) ≠ (0, 0) →
          (V3.sub ([(⟨10, 0, 0⟩ : V3)].getD 0 V3.zero) V3.zero).norm < 1) :=
  ⟨by norm_num, by simp,
    C4_strict_ball V3.zero 1 DistributionType.FlatDisc [(⟨10, 0, 0⟩ : V3)] 0
      (by norm_num) (by simp)⟩

/-- Claim C10: for every radius `R > 0` and kernel kind, the self weight
`weight(0)` is strictly positive (it is `3/(4π)`, `π/12` or `1/(2π)`), hence
the accumulated denominator is strictly positive and the final division by
`denominator · R` never divides by zero, for any input positions. -/
theorem C10_positive_denominator (positions : List V3) (R : ℝ)
    (kind : DistributionType) (f : ℕ) (hR : 0 < R) (hf : f < positions.length) :
    0 < measureFunction kind 0
    ∧ (measureFunction kind 0 = 3 / (4 * Real.pi)
        ∨ measureFunction kind 0 = Real.pi / 12
        ∨ measureFunction kind 0 = 1 / (2 * Real.pi))
    ∧ 0 < specDenominator positions R kind f
    ∧ specDenominator positions R kind f * R ≠ 0 := by
  have hm : 0 < measureFunction kind 0 := by
    cases kind <;> simp [measureFunction] <;> positivity
  have hval : measureFunction kind 0 = 3 / (4 * Real.pi)
      ∨ measureFunction kind 0 = Real.pi / 12
      ∨ measureFunction kind 0 = 1 / (2 * Real.pi) := by
    cases kind
    · exact Or.inl rfl
    · refine Or.inr (Or.inl ?_)
      show (1 - 0) * Real.pi / 12 = Real.pi / 12
      ring
    · refine Or.inr (Or.inr ?_)
      show (1 - 0 * 0) / (Real.pi * 2) = 1 / (2 * Real.pi)
      ring
  have hwself : weightOf positions R kind f f = measureFunction kind 0 := by
    unfold weightOf
    rw [V3.sub_self, V3.zero_norm, if_pos hR, zero_div]
  have hself : 0 < weightTerm positions R kind f f := by
    unfold weightTerm
    rw [hwself, if_pos hm]
    exact hm
  have hpos : 0 < specDenominator positions R kind f := by
    refine Finset.sum_pos' ?_ ⟨f, Finset.mem_range.mpr hf, hself⟩
    intro g _
    unfold weightTerm
    by_cases h : 0 < weightOf positions R kind f g
    · rw [if_pos h]; exact le_of_lt h
    · rw [if_neg h]
  exact ⟨hm, hval, hpos, mul_ne_zero (ne_of_gt hpos) (ne_of_gt hR)⟩

/-- Witness for C10 at a concrete one-sample input. -/
theorem C10_positive_denominator_witness :
    (0 : ℝ) < 1 ∧ 0 < [V3.zero].length ∧
      (0 < measureFunction DistributionType.FlatDisc 0
      ∧ (measureFunction DistributionType.FlatDisc 0 = 3 / (4 * Real.pi)
          ∨ measureFunction DistributionType.FlatDisc 0 = Real.pi / 12
          ∨ measureFunction DistributionType.FlatDisc 0 = 1 / (2 * Real.pi))
      ∧ 0 < specDenominator [V3.zero] 1 DistributionType.FlatDisc 0
      ∧ specDenominator [V3.zero] 1 DistributionType.FlatDisc 0 * 1 ≠ 0) :=
  ⟨by norm_num, by simp,
    C10_positive_denominator [V3.zero] 1 DistributionType.FlatDisc 0
      (by norm_num) (by simp)⟩

theorem V3.sub_eq_add_smul (u v : V3) : V3.sub u v = V3.add u (V3.smul (-1) v) := by
  cases u; cases v
  simp only [V3.sub, V3.add, V3.smul, V3.mk.injEq]
  refine ⟨by ring, by ring, by ring⟩

theorem V3.smul_zero_scalar (v : V3) : V3.smul 0 v = V3.zero := by
  cases v; simp [V3.smul, V3.zero]

theorem V3.neg_eq_smul (v : V3) : V3.neg v = V3.smul (-1) v := by
  cases v
  simp only [V3.neg, V3.smul, V3.mk.injEq]
  refine ⟨by ring, by ring, by ring⟩

theorem V3.divScalar_eq_smul (v : V3) (c : ℝ) : v.divScalar c = V3.smul (1 / c) v := by
  cases v
  simp only [V3.divScalar, V3.smul, V3.mk.injEq]
  refine ⟨by ring, by ring, by ring⟩

theorem V3.sub_add_cancel_t (a b t : V3) :
    V3.sub (V3.add a t) (V3.add b t) = V3.sub a b := by
  cases a; cases b; cases t
  simp only [V3.sub, V3.add, V3.mk.injEq]
  refine ⟨by ring, by ring, by ring⟩

theorem rigid_zero (Q : V3 → V3)
    (hsmul : ∀ (c : ℝ) (v : V3), Q (V3.smul c v) = V3.smul c (Q v)) :
    Q V3.zero = V3.zero := by
  have h := hsmul 0 V3.zero
  rw [V3.smul_zero_scalar] at h
  rw [h, V3.smul_zero_scalar]

theorem rigid_sub (Q : V3 → V3)
    (hadd : ∀ u v, Q (V3.add u v) = V3.add (Q u) (Q v))
    (hsmul : ∀ (c : ℝ) (v : V3), Q (V3.smul c v) = V3.smul c (Q v))
    (u v : V3) : Q (V3.sub u v) = V3.sub (Q u) (Q v) := by
  rw [V3.sub_eq_add_smul, hadd, hsmul, ← V3.sub_eq_add_smul]

theorem rigid_squaredNorm (Q : V3 → V3)
    (hdot : ∀ u v, V3.dot (Q u) (Q v) = V3.dot u v) (v : V3) :
    (Q v).squaredNorm = v.squaredNorm := by
  unfold V3.squaredNorm
  rw [hdot]

theorem rigid_norm (Q : V3 → V3)
    (hdot : ∀ u v, V3.dot (Q u) (Q v) = V3.dot u v) (v : V3) :
    (Q v).norm = v.norm := by
  unfold V3.norm
  rw [rigid_squaredNorm Q hdot]

theorem rigid_projection (Q : V3 → V3)
    (hadd : ∀ u v, Q (V3.add u v) = V3.add (Q u) (Q v))
    (hsmul : ∀ (c : ℝ) (v : V3), Q (V3.smul c v) = V3.smul c (Q v))
    (hdot : ∀ u v, V3.dot (Q u) (Q v) = V3.dot u v)
    (v n : V3) : projection (Q v) (Q n) = Q (projection v n) := by
  unfold projection
  rw [rigid_sub Q hadd hsmul, hsmul, hdot, rigid_squaredNorm Q hdot]

theorem rigid_divScalar (Q : V3 → V3)
    (hsmul : ∀ (c : ℝ) (v : V3), Q (V3.smul c v) = V3.smul c (Q v))
    (v : V3) (c : ℝ) : Q (v.divScalar c) = (Q v).divScalar c := by
  rw [V3.divScalar_eq_smul, hsmul, ← V3.divScalar_eq_smul]

theorem rigid_neg (Q : V3 → V3)
    (hsmul : ∀ (c : ℝ) (v : V3), Q (V3.smul c v) = V3.smul c (Q v))
    (v : V3) : Q (V3.neg v) = V3.neg (Q v) := by
  rw [V3.neg_eq_smul, hsmul, ← V3.neg_eq_smul]

theorem rigid_sum (Q : V3 → V3)
    (hadd : ∀ u v, Q (V3.add u v) = V3.add (Q u) (Q v))
    (hsmul : ∀ (c : ℝ) (v : V3), Q (V3.smul c v) = V3.smul c (Q v))
    (s : Finset ℕ) (g : ℕ → V3) :
    Q (∑ i ∈ s, g i) = ∑ i ∈ s, Q (g i) := by
  induction s using Finset.cons_induction with
  | empty => simpa [V3.zero_def] using rigid_zero Q hsmul
  | cons a s ha ih =>
      rw [Finset.sum_cons, Finset.sum_cons, V3.add_def, V3.add_def, hadd, ih]

theorem getD_map_rigid (Q : V3 → V3)
    (hsmul : ∀ (c : ℝ) (v : V3), Q (V3.smul c v) = V3.smul c (Q v))
    (l : List V3) (i : ℕ) :
    (l.map Q).getD i V3.zero = Q (l.getD i V3.zero) := by
  by_cases h : i < l.length
  · exact getD_map_lt Q l i h V3.zero V3.zero
  · rw [List.getD_eq_default _ _ (by simpa using not_lt.mp h),
      List.getD_eq_default _ _ (not_lt.mp h), rigid_zero Q hsmul]

theorem rigid_weightOf (positions : List V3) (R : ℝ) (kind : DistributionType)
    (Q : V3 → V3) (t : V3)
    (hadd : ∀ u v, Q (V3.add u v) = V3.add (Q u) (Q v))
    (hsmul : ∀ (c : ℝ) (v : V3), Q (V3.smul c v) = V3.smul c (Q v))
    (hdot : ∀ u v, V3.dot (Q u) (Q v) = V3.dot u v)
    (f g : ℕ) (hf : f < positions.length) (hg : g < positions.length) :
    weightOf (positions.map fun p => V3.add (Q p) t) R kind f g
      = weightOf positions R kind f g := by
  unfold weightOf
  rw [getD_map_lt _ _ _ hf _ V3.zero, getD_map_lt _ _ _ hg _ V3.zero,
    V3.sub_add_cancel_t, ← rigid_sub Q hadd hsmul, rigid_norm Q hdot]

theorem rigid_curvatureTerm (positions normals : List V3) (R : ℝ)
    (kind : DistributionType) (Q : V3 → V3) (t : V3)
    (hadd : ∀ u v, Q (V3.add u v) = V3.add (Q u) (Q v))
    (hsmul : ∀ (c : ℝ) (v : V3), Q (V3.smul c v) = V3.smul c (Q v))
    (hdot : ∀ u v, V3.dot (Q u) (Q v) = V3.dot u v)
    (f g : ℕ) (hf : f < positions.length) (hg : g < positions.length) :
    curvatureTerm (positions.map fun p => V3.add (Q p) t) (normals.map Q) R kind f g
      = Q (curvatureTerm positions normals R kind f g) := by
  unfold curvatureTerm
  rw [rigid_weightOf positions R kind Q t hadd hsmul hdot f g hf hg]
  by_cases hc : 0 < weightOf positions R kind f g ∧ g ≠ f
  · rw [if_pos hc, if_pos hc,
      getD_map_lt _ _ _ hg _ V3.zero, getD_map_lt _ _ _ hf _ V3.zero,
      getD_map_rigid Q hsmul normals g,
      V3.sub_add_cancel_t, ← rigid_sub Q hadd hsmul,
      rigid_projection Q hadd hsmul hdot, rigid_norm Q hdot,
      ← hsmul, ← rigid_divScalar Q hsmul]
  · rw [if_neg hc, if_neg hc, rigid_zero Q hsmul]

theorem rigid_weightTerm (positions : List V3) (R : ℝ) (kind : DistributionType)
    (Q : V3 → V3) (t : V3)
    (hadd : ∀ u v, Q (V3.add u v) = V3.add (Q u) (Q v))
    (hsmul : ∀ (c : ℝ) (v : V3), Q (V3.smul c v) = V3.smul c (Q v))
    (hdot : ∀ u v, V3.dot (Q u) (Q v) = V3.dot u v)
    (f g : ℕ) (hf : f < positions.length) (hg : g < positions.length) :
    weightTerm (positions.map fun p => V3.add (Q p) t) R kind f g
      = weightTerm positions R kind f g := by
  unfold weightTerm
  rw [rigid_weightOf positions R kind Q t hadd hsmul hdot f g hf hg]

theorem rigid_specNumerator (positions normals : List V3) (R : ℝ)
    (kind : DistributionType) (Q : V3 → V3) (t : V3)
    (hadd : ∀ u v, Q (V3.add u v) = V3.add (Q u) (Q v))
    (hsmul : ∀ (c : ℝ) (v : V3), Q (V3.smul c v) = V3.smul c (Q v))
    (hdot : ∀ u v, V3.dot (Q u) (Q v) = V3.dot u v)
    (f : ℕ) (hf : f < positions.length) :
    specNumerator (positions.map fun p => V3.add (Q p) t) (normals.map Q) R kind f
      = Q (specNumerator positions normals R kind f) := by
  unfold specNumerator
  rw [List.length_map, rigid_sum Q hadd hsmul]
  refine Finset.sum_congr rfl ?_
  intro g hgmem
  exact rigid_curvatureTerm positions normals R kind Q t hadd hsmul hdot f g hf
    (Finset.mem_range.mp hgmem)

theorem rigid_specDenominator (positions : List V3) (R : ℝ)
    (kind : DistributionType) (Q : V3 → V3) (t : V3)
    (hadd : ∀ u v, Q (V3.add u v) = V3.add (Q u) (Q v))
    (hsmul : ∀ (c : ℝ) (v : V3), Q (V3.smul c v) = V3.smul c (Q v))
    (hdot : ∀ u v, V3.dot (Q u) (Q v) = V3.dot u v)
    (f : ℕ) (hf : f < positions.length) :
    specDenominator (positions.map fun p => V3.add (Q p) t) R kind f
      = specDenominator positions R kind f := by
  unfold specDenominator
  rw [List.length_map]
  refine Finset.sum_congr rfl ?_
  intro g hgmem
  exact rigid_weightTerm positions R kind Q t hadd hsmul hdot f g hf
    (Finset.mem_range.mp hgmem)

theorem rigid_curvatureAt (positions normals : List V3) (R : ℝ)
    (kind : DistributionType) (Q : V3 → V3) (t : V3)
    (hadd : ∀ u v, Q (V3.add u v) = V3.add (Q u) (Q v))
    (hsmul : ∀ (c : ℝ) (v : V3), Q (V3.smul c v) = V3.smul c (Q v))
    (hdot : ∀ u v, V3.dot (Q u) (Q v) = V3.dot u v)
    (f : ℕ) (hf : f < positions.length) :
    curvatureAt (positions.map fun p => V3.add (Q p) t) (normals.map Q) R kind f
      = Q (curvatureAt positions normals R kind f) := by
  rw [curvatureAt_eq, curvatureAt_eq,
    rigid_specNumerator positions normals R kind Q t hadd hsmul hdot f hf,
    rigid_specDenominator positions R kind Q t hadd hsmul hdot f hf,
    ← rigid_neg Q hsmul, ← rigid_divScalar Q hsmul]

/-- Claim C7: applying a dot-product-preserving linear map `Q` and a
translation `t` to all positions, and `Q` to all normals, yields exactly `Q`
applied to each estimated curvature vector (rigid-motion equivariance of the
estimator, for every input and kernel kind). -/
theorem C7_rigid_equivariance (positions normals : List V3) (R : ℝ)
    (kind : DistributionType) (Q : V3 → V3) (t : V3)
    (hadd : ∀ u v, Q (V3.add u v) = V3.add (Q u) (Q v))
    (hsmul : ∀ (c : ℝ) (v : V3), Q (V3.smul c v) = V3.smul c (Q v))
    (hdot : ∀ u v, V3.dot (Q u) (Q v) = V3.dot u v) :
    computeLocalCurvature (positions.map fun p => V3.add (Q p) t) (normals.map Q) R kind
      = (computeLocalCurvature positions normals R kind).map Q := by
  unfold computeLocalCurvature
  rw [List.length_map, List.map_map]
  refine List.map_congr_left ?_
  intro f hf
  simpa using rigid_curvatureAt positions normals R kind Q t hadd hsmul hdot f
    (List.mem_range.mp hf)

/-- Witness for C7 with the identity rigid motion on a one-sample input. -/
theorem C7_rigid_equivariance_witness :
    (∀ u v : V3, V3.dot ((fun w => w) u) ((fun w => w) v) = V3.dot u v) ∧
      computeLocalCurvature ([V3.zero].map fun p => V3.add ((fun w => w) p) V3.zero)
          ([(⟨0, 0, 1⟩ : V3)].map (fun w => w)) 1 DistributionType.FlatDisc
        = (computeLocalCurvature [V3.zero] [(⟨0, 0, 1⟩ : V3)] 1
            DistributionType.FlatDisc).map (fun w => w) :=
  ⟨fun _ _ => rfl,
    C7_rigid_equivariance [V3.zero] [(⟨0, 0, 1⟩ : V3)] 1 DistributionType.FlatDisc
      (fun w => w) V3.zero (fun _ _ => rfl) (fun _ _ => rfl) (fun _ _ => rfl)⟩

theorem getD_set_ne {α : Type} (l : List α) (i j : ℕ) (a d : α) (h : i ≠ j) :
    (l.set i a).getD j d = l.getD j d := by
  rw [List.getD_eq_getElem?_getD, List.getD_eq_getElem?_getD, List.getElem?_set_ne h]

theorem getD_set_self {α : Type} (l : List α) (i : ℕ) (a d : α) (h : i < l.length) :
    (l.set i a).getD i d = a := by
  rw [List.getD_eq_getElem?_getD, List.getElem?_set_self (by simpa using h)]
  rfl

theorem signSum_eq (incl : ℕ → ℕ → ℝ) (i : ℕ) (lcs : List ℝ) (l : List ℕ) (s : ℝ) :
    l.foldl (fun s f => if f ≠ i ∧ 0 < incl i f then s + lcs.getD f 0 else s) s
      = s + (l.map fun f => if f ≠ i ∧ 0 < incl i f then lcs.getD f 0 else 0).sum := by
  induction l generalizing s with
  | nil => simp
  | cons g tail ih =>
      rw [List.foldl_cons, ih, List.map_cons, List.sum_cons]
      by_cases h : g ≠ i ∧ 0 < incl i g
      · rw [if_pos h, if_pos h]
        ring
      · rw [if_neg h, if_neg h]
        ring

theorem stateAfter_succ (incl : ℕ → ℕ → ℝ) (naive : List ℝ) (k : ℕ) :
    stateAfter incl naive (k + 1)
      = signCorrectStep incl naive.length (stateAfter incl naive k) k := by
  unfold stateAfter
  rw [List.range_succ, List.foldl_append]
  simp

theorem stateAfter_length (incl : ℕ → ℕ → ℝ) (naive : List ℝ) (k : ℕ) :
    (stateAfter incl naive k).length = naive.length := by
  induction k with
  | zero => rfl
  | succ n ih =>
      rw [stateAfter_succ]
      unfold signCorrectStep
      rw [List.length_set]
      exact ih

theorem stateAfter_getD_ge (incl : ℕ → ℕ → ℝ) (naive : List ℝ) (k j : ℕ) (h : k ≤ j) :
    (stateAfter incl naive k).getD j 0 = naive.getD j 0 := by
  induction k with
  | zero => rfl
  | succ n ih =>
      rw [stateAfter_succ]
      unfold signCorrectStep
      rw [getD_set_ne _ _ _ _ _ (by omega)]
      exact ih (by omega)

theorem stateAfter_getD_lt (incl : ℕ → ℕ → ℝ) (naive : List ℝ) (j k : ℕ) (hj : j < k) :
    (stateAfter incl naive k).getD j 0 = (stateAfter incl naive (j + 1)).getD j 0 := by
  induction k with
  | zero => omega
  | succ n ih =>
      by_cases h : j < n
      · rw [stateAfter_succ]
        unfold signCorrectStep
        rw [getD_set_ne _ _ _ _ _ (by omega)]
        exact ih h
      · have hjn : j = n := by omega
        subst hjn
        rfl

/-- Claim C3 (amended): the sign correction is applied sequentially in place,
so the corrected value at index `i` is `|naive i|` times `-1` exactly when the
unweighted sum of the current working values — already-corrected values for
neighbors with index below `i`, naive values for those above — over the
neighbors with positive inclusion ratio, excluding `i` itself, is strictly
negative, and `+1` otherwise. -/
theorem C3_sequential_sign_correction (incl : ℕ → ℕ → ℝ) (naive : List ℝ) (i : ℕ)
    (hi : i < naive.length) :
    (correctSigns incl naive).getD i 0
      = |naive.getD i 0| *
          if mixedNeighborSum incl naive i < 0 then -1 else 1 := by
  have hsum : (List.range naive.length).foldl
      (fun s f => if f ≠ i ∧ 0 < incl i f
        then s + (stateAfter incl naive i).getD f 0 else s) 0
      = mixedNeighborSum incl naive i := by
    rw [signSum_eq, zero_add, sum_map_range]
    unfold mixedNeighborSum
    refine Finset.sum_congr rfl ?_
    intro g hg
    by_cases hc : g ≠ i ∧ 0 < incl i g
    · rw [if_pos hc, if_pos hc]
      by_cases hgi : g < i
      · rw [if_pos hgi, stateAfter_getD_lt incl naive g i hgi,
          show correctSigns incl naive = stateAfter incl naive naive.length from rfl,
          stateAfter_getD_lt incl naive g naive.length (Finset.mem_range.mp hg)]
      · rw [if_neg hgi]
        exact stateAfter_getD_ge incl naive i g (not_lt.mp hgi)
    · rw [if_neg hc, if_neg hc]
  rw [show correctSigns incl naive = stateAfter incl naive naive.length from rfl,
    stateAfter_getD_lt incl naive i naive.length hi, stateAfter_succ]
  unfold signCorrectStep
  rw [getD_set_self _ _ _ _ (by rw [stateAfter_length]; exact hi),
    stateAfter_getD_ge incl naive i i le_rfl, hsum]

/-- Witness for C3 (amended) on a one-element input. -/
theorem C3_sequential_sign_correction_witness :
    0 < [(1 : ℝ)].length ∧
      (correctSigns (fun _ _ => 1) [(1 : ℝ)]).getD 0 0
        = |[(1 : ℝ)].getD 0 0| *
            if mixedNeighborSum (fun _ _ => 1) [(1 : ℝ)] 0 < 0 then -1 else 1 :=
  ⟨by simp, C3_sequential_sign_correction (fun _ _ => 1) [(1 : ℝ)] 0 (by simp)⟩

/-- Counterexample to C3 as stated: with naive values `[1, -2, -5]` and
inclusion ratios `inclEx` (ratio `3` for neighbor `0` of element `2`, ratio
`1` everywhere else), the code returns `-5` at index `2` (its in-place,
unweighted neighbor sum reads the already-corrected `-1` at index `0`), while
the claimed inclusion-weighted naive-value sum `3·1 + 1·(-2) = 1` is
non-negative and would give `+5`. -/
theorem C3_counterexample :
    (correctSigns inclEx [1, -2, -5]).getD 2 0 = -5
    ∧ claimCorrected inclEx [1, -2, -5] 2 = 5 := by
  constructor
  · show (([(0 : ℕ), 1, 2]).foldl (signCorrectStep inclEx 3) [1, -2, -5]).getD 2 0 = -5
    rw [List.foldl_cons, List.foldl_cons, List.foldl_cons, List.foldl_nil]
    norm_num [signCorrectStep, inclEx, show List.range 3 = [0, 1, 2] from rfl]
  · unfold claimCorrected claimNeighborSum
    norm_num [Finset.sum_range_succ, inclEx]

theorem measureFunction_zero_pos (kind : DistributionType) :
    0 < measureFunction kind 0 := by
  have hpi := Real.pi_pos
  cases kind
  · show 0 < 3 / (4 * Real.pi)
    positivity
  · show 0 < (1 - 0) * Real.pi / 12
    norm_num [hpi]
  · show 0 < (1 - 0 * 0) / (Real.pi * 2)
    norm_num
    positivity

theorem V3.smul_zero_vec (c : ℝ) : V3.smul c V3.zero = V3.zero := by
  simp [V3.smul, V3.zero]

theorem V3.zero_divScalar (c : ℝ) : V3.zero.divScalar c = V3.zero := by
  simp [V3.divScalar, V3.zero]

theorem V3.negZero_divScalar (c : ℝ) : (V3.neg V3.zero).divScalar c = V3.zero := by
  simp [V3.neg, V3.zero, V3.divScalar]

theorem projection_zero (n : V3) : projection V3.zero n = V3.zero := by
  cases n
  simp [projection, V3.dot, V3.squaredNorm, V3.sub, V3.smul, V3.zero]

theorem V3.norm_val (a b c q : ℝ) (h : a * a + b * b + c * c = q) :
    (V3.mk a b c).norm = Real.sqrt q := by
  unfold V3.norm V3.squaredNorm V3.dot
  rw [h]

theorem weightOf_self (positions : List V3) (R : ℝ) (kind : DistributionType)
    (f : ℕ) (hR : 0 < R) :
    weightOf positions R kind f f = measureFunction kind 0 := by
  unfold weightOf
  rw [V3.sub_self, V3.zero_norm, if_pos hR, zero_div]


theorem twoPointFar_eval (p0 p1 n0 n1 : V3) (R : ℝ) (kind : DistributionType)
    (hR : 0 < R) (hd : R ≤ (V3.sub p1 p0).norm) :
    computeLocalCurvature [p0, p1] [n0, n1] R kind = [V3.zero, V3.zero]
    ∧ specDenominator [p0, p1] R kind 0 = measureFunction kind 0
    ∧ specDenominator [p0, p1] R kind 1 = measureFunction kind 0 := by
  have hm := measureFunction_zero_pos kind
  have e0 : (([p0, p1] : List V3).getD 0 V3.zero) = p0 := rfl
  have e1 : (([p0, p1] : List V3).getD 1 V3.zero) = p1 := rfl
  have hw01 : weightOf [p0, p1] R kind 0 1 = 0 := by
    unfold weightOf
    rw [e0, e1, V3.norm_sub_comm]
    exact if_neg (not_lt.mpr hd)
  have hw10 : weightOf [p0, p1] R kind 1 0 = 0 := by
    unfold weightOf
    rw [e1, e0]
    exact if_neg (not_lt.mpr hd)
  have hct00 : curvatureTerm [p0, p1] [n0, n1] R kind 0 0 = V3.zero := by
    simp [curvatureTerm]
  have hct11 : curvatureTerm [p0, p1] [n0, n1] R kind 1 1 = V3.zero := by
    simp [curvatureTerm]
  have hct01 : curvatureTerm [p0, p1] [n0, n1] R kind 0 1 = V3.zero := by
    unfold curvatureTerm
    rw [hw01]
    simp
  have hct10 : curvatureTerm [p0, p1] [n0, n1] R kind 1 0 = V3.zero := by
    unfold curvatureTerm
    rw [hw10]
    simp
  have hnum0 : specNumerator [p0, p1] [n0, n1] R kind 0 = V3.zero := by
    show ∑ g ∈ Finset.range 2, curvatureTerm [p0, p1] [n0, n1] R kind 0 g = V3.zero
    rw [Finset.sum_range_succ, Finset.sum_range_one, hct00, hct01]
    simp [← V3.zero_def]
  have hnum1 : specNumerator [p0, p1] [n0, n1] R kind 1 = V3.zero := by
    show ∑ g ∈ Finset.range 2, curvatureTerm [p0, p1] [n0, n1] R kind 1 g = V3.zero
    rw [Finset.sum_range_succ, Finset.sum_range_one, hct10, hct11]
    simp [← V3.zero_def]
  have hden0 : specDenominator [p0, p1] R kind 0 = measureFunction kind 0 := by
    show ∑ g ∈ Finset.range 2, weightTerm [p0, p1] R kind 0 g = measureFunction kind 0
    rw [Finset.sum_range_succ, Finset.sum_range_one]
    unfold weightTerm
    rw [hw01, weightOf_self [p0, p1] R kind 0 hR, if_pos hm, if_neg (lt_irrefl 0)]
    ring
  have hden1 : specDenominator [p0, p1] R kind 1 = measureFunction kind 0 := by
    show ∑ g ∈ Finset.range 2, weightTerm [p0, p1] R kind 1 g = measureFunction kind 0
    rw [Finset.sum_range_succ, Finset.sum_range_one]
    unfold weightTerm
    rw [hw10, weightOf_self [p0, p1] R kind 1 hR, if_pos hm, if_neg (lt_irrefl 0)]
    ring
  refine ⟨?_, hden0, hden1⟩
  have hmap : computeLocalCurvature [p0, p1] [n0, n1] R kind
      = [curvatureAt [p0, p1] [n0, n1] R kind 0,
         curvatureAt [p0, p1] [n0, n1] R kind 1] := rfl
  rw [hmap, curvatureAt_eq, curvatureAt_eq, hnum0, hnum1,
    V3.negZero_divScalar, V3.negZero_divScalar]

/-- Claim C5 (amended): with `R > 0` and a 2-point input whose pairwise
distance is at least `R`, each sample's accumulated denominator equals its own
self weight `weight(0)`, which is strictly positive — a zero total weight is
impossible — and the code, performing no degenerate-neighborhood detection,
returns the numeric zero curvature vector for both samples. -/
theorem C5_no_detection (p0 p1 n0 n1 : V3) (R : ℝ) (kind : DistributionType)
    (hR : 0 < R) (hd : R ≤ (V3.sub p1 p0).norm) :
    computeLocalCurvature [p0, p1] [n0, n1] R kind = [V3.zero, V3.zero]
    ∧ specDenominator [p0, p1] R kind 0 = measureFunction kind 0
    ∧ specDenominator [p0, p1] R kind 1 = measureFunction kind 0
    ∧ 0 < measureFunction kind 0 :=
  ⟨(twoPointFar_eval p0 p1 n0 n1 R kind hR hd).1,
   (twoPointFar_eval p0 p1 n0 n1 R kind hR hd).2.1,
   (twoPointFar_eval p0 p1 n0 n1 R kind hR hd).2.2,
   measureFunction_zero_pos kind⟩

/-- Witness for C5 (amended) at the concrete 2-point far input. -/
theorem C5_no_detection_witness :
    (0 : ℝ) < 1
    ∧ (1 : ℝ) ≤ (V3.sub (⟨10, 0, 0⟩ : V3) (⟨0, 0, 0⟩ : V3)).norm
    ∧ (computeLocalCurvature [(⟨0, 0, 0⟩ : V3), ⟨10, 0, 0⟩]
          [(⟨0, 0, 1⟩ : V3), ⟨0, 0, 1⟩] 1 DistributionType.FlatDisc
            = [V3.zero, V3.zero]
      ∧ specDenominator [(⟨0, 0, 0⟩ : V3), ⟨10, 0, 0⟩] 1
          DistributionType.FlatDisc 0 = measureFunction DistributionType.FlatDisc 0
      ∧ specDenominator [(⟨0, 0, 0⟩ : V3), ⟨10, 0, 0⟩] 1
          DistributionType.FlatDisc 1 = measureFunction DistributionType.FlatDisc 0
      ∧ 0 < measureFunction DistributionType.FlatDisc 0) := by
  have hd : (1 : ℝ) ≤ (V3.sub (⟨10, 0, 0⟩ : V3) (⟨0, 0, 0⟩ : V3)).norm := by
    rw [show V3.sub (⟨10, 0, 0⟩ : V3) (⟨0, 0, 0⟩ : V3) = V3.mk 10 0 0 from
        by norm_num [V3.sub, V3.mk.injEq],
      V3.norm_val 10 0 0 100 (by norm_num),
      show (100 : ℝ) = 10 ^ 2 from by norm_num,
      Real.sqrt_sq (by norm_num : (0 : ℝ) ≤ 10)]
    norm_num
  exact ⟨by norm_num, hd,
    C5_no_detection ⟨0, 0, 0⟩ ⟨10, 0, 0⟩ ⟨0, 0, 1⟩ ⟨0, 0, 1⟩ 1
      DistributionType.FlatDisc (by norm_num) hd⟩

/-- Counterexample to C5 as stated: at the claim's own 2-point scenario
(distance `10 > R = 1`) the total kernel weight is not zero — it equals the
positive self weight — and the estimator, with no error channel at all,
returns a plain numeric curvature (the zero vector) for both samples. -/
theorem C5_counterexample :
    computeLocalCurvature [(⟨0, 0, 0⟩ : V3), ⟨10, 0, 0⟩]
        [(⟨0, 0, 1⟩ : V3), ⟨0, 0, 1⟩] 1 DistributionType.FlatDisc
      = [V3.zero, V3.zero]
    ∧ specDenominator [(⟨0, 0, 0⟩ : V3), ⟨10, 0, 0⟩] 1
        DistributionType.FlatDisc 0 ≠ 0 := by
  have hd : (1 : ℝ) ≤ (V3.sub (⟨10, 0, 0⟩ : V3) (⟨0, 0, 0⟩ : V3)).norm := by
    rw [show V3.sub (⟨10, 0, 0⟩ : V3) (⟨0, 0, 0⟩ : V3) = V3.mk 10 0 0 from
        by norm_num [V3.sub, V3.mk.injEq],
      V3.norm_val 10 0 0 100 (by norm_num),
      show (100 : ℝ) = 10 ^ 2 from by norm_num,
      Real.sqrt_sq (by norm_num : (0 : ℝ) ≤ 10)]
    norm_num
  have h := twoPointFar_eval ⟨0, 0, 0⟩ ⟨10, 0, 0⟩ ⟨0, 0, 1⟩ ⟨0, 0, 1⟩ 1
    DistributionType.FlatDisc (by norm_num) hd
  refine ⟨h.1, ?_⟩
  rw [h.2.1]
  exact ne_of_gt (measureFunction_zero_pos _)

theorem nonposRadius_eval (positions normals : List V3) (R : ℝ)
    (kind : DistributionType) (hR : R ≤ 0) :
    computeLocalCurvature positions normals R kind
      = positions.map fun _ => V3.zero := by
  have hw : ∀ f g : ℕ, weightOf positions R kind f g = 0 := by
    intro f g
    unfold weightOf
    exact if_neg (not_lt.mpr (le_trans hR (V3.norm_nonneg _)))
  have hci : ∀ f : ℕ, curvatureAt positions normals R kind f = V3.zero := by
    intro f
    rw [curvatureAt_eq]
    have hnum : specNumerator positions normals R kind f = V3.zero := by
      rw [show V3.zero = (0 : V3) from rfl]
      refine Finset.sum_eq_zero ?_
      intro g _
      unfold curvatureTerm
      rw [hw]
      simp [← V3.zero_def]
    rw [hnum, V3.negZero_divScalar]
  unfold computeLocalCurvature
  have hrep : (List.range positions.length).map
        (curvatureAt positions normals R kind)
      = List.replicate ((List.range positions.length).map
          (curvatureAt positions normals R kind)).length V3.zero := by
    refine List.eq_replicate_of_mem ?_
    intro b hb
    rcases List.mem_map.mp hb with ⟨f, _, rfl⟩
    exact hci f
  rw [hrep, List.length_map, List.length_range, List.map_const']

/-- Claim C9 evaluation at the failing input: a call with radius `-1 ≤ 0` is
not rejected — the estimator loop runs and pushes a numeric curvature for the
sample (the `-0/(0·R)` value: the zero vector in the exact real model, `NaN`
in IEEE doubles), so computation does start and a per-sample numeric result is
produced. -/
theorem C9_no_radius_rejection :
    computeLocalCurvature [(⟨0, 0, 0⟩ : V3)] [(⟨0, 0, 1⟩ : V3)] (-1)
        DistributionType.FlatDisc = [V3.zero] := by
  have h := nonposRadius_eval [(⟨0, 0, 0⟩ : V3)] [(⟨0, 0, 1⟩ : V3)] (-1)
    DistributionType.FlatDisc (by norm_num)
  simpa using h

theorem coincident_eval (p n0 n1 : V3) (R : ℝ) (kind : DistributionType) :
    computeLocalCurvature [p, p] [n0, n1] R kind = [V3.zero, V3.zero] := by
  have e0 : (([p, p] : List V3).getD 0 V3.zero) = p := rfl
  have e1 : (([p, p] : List V3).getD 1 V3.zero) = p := rfl
  have hct : ∀ f g : ℕ, f ≤ 1 → g ≤ 1 →
      curvatureTerm [p, p] [n0, n1] R kind f g = V3.zero := by
    intro f g hf hg
    have ef : (([p, p] : List V3).getD f V3.zero) = p := by
      interval_cases f
      · exact e0
      · exact e1
    have eg : (([p, p] : List V3).getD g V3.zero) = p := by
      interval_cases g
      · exact e0
      · exact e1
    unfold curvatureTerm
    split
    · rw [eg, ef, V3.sub_self, projection_zero, V3.smul_zero_vec, V3.zero_divScalar]
    · rfl
  have hv : ∀ f : ℕ, f ≤ 1 → curvatureAt [p, p] [n0, n1] R kind f = V3.zero := by
    intro f hf
    rw [curvatureAt_eq]
    have hnum : specNumerator [p, p] [n0, n1] R kind f = V3.zero := by
      show ∑ g ∈ Finset.range 2, curvatureTerm [p, p] [n0, n1] R kind f g = V3.zero
      rw [Finset.sum_range_succ, Finset.sum_range_one, hct f 0 hf (by norm_num),
        hct f 1 hf (by norm_num)]
      simp [← V3.zero_def]
    rw [hnum, V3.negZero_divScalar]
  have hmap : computeLocalCurvature [p, p] [n0, n1] R kind
      = [curvatureAt [p, p] [n0, n1] R kind 0,
         curvatureAt [p, p] [n0, n1] R kind 1] := rfl
  rw [hmap, hv 0 (by norm_num), hv 1 (by norm_num)]

/-- Claim C8 evaluation at the failing input: two samples share the exact
position `(0,0,0)`; the neighbor `g = 1` of center `f = 0` has strictly
positive kernel weight while the displacement norm — the divisor in the
numerator contribution — is exactly `0`, yet the estimator reports nothing:
it performs the division by zero (`NaN` components in IEEE doubles, the zero
vector in the exact real model) and returns a plain numeric list. -/
theorem C8_silent_zero_displacement :
    (V3.sub (([(⟨0, 0, 0⟩ : V3), ⟨0, 0, 0⟩] : List V3).getD 1 V3.zero)
        (([(⟨0, 0, 0⟩ : V3), ⟨0, 0, 0⟩] : List V3).getD 0 V3.zero)).norm = 0
    ∧ 0 < weightOf [(⟨0, 0, 0⟩ : V3), ⟨0, 0, 0⟩] 1 DistributionType.FlatDisc 0 1
    ∧ computeLocalCurvature [(⟨0, 0, 0⟩ : V3), ⟨0, 0, 0⟩]
        [(⟨0, 0, 1⟩ : V3), ⟨0, 0, 1⟩] 1 DistributionType.FlatDisc
      = [V3.zero, V3.zero] := by
  have e0 : (([(⟨0, 0, 0⟩ : V3), ⟨0, 0, 0⟩] : List V3).getD 0 V3.zero)
      = (⟨0, 0, 0⟩ : V3) := rfl
  have e1 : (([(⟨0, 0, 0⟩ : V3), ⟨0, 0, 0⟩] : List V3).getD 1 V3.zero)
      = (⟨0, 0, 0⟩ : V3) := rfl
  refine ⟨?_, ?_, coincident_eval ⟨0, 0, 0⟩ ⟨0, 0, 1⟩ ⟨0, 0, 1⟩ 1
    DistributionType.FlatDisc⟩
  · rw [e0, e1, V3.sub_self, V3.zero_norm]
  · have hval : weightOf [(⟨0, 0, 0⟩ : V3), ⟨0, 0, 0⟩] 1
        DistributionType.FlatDisc 0 1 = measureFunction DistributionType.FlatDisc 0 := by
      unfold weightOf
      rw [e0, e1, V3.sub_self, V3.zero_norm,
        if_pos (show (0 : ℝ) < 1 by norm_num), zero_div]
    rw [hval]
    exact measureFunction_zero_pos _

theorem projection_xy (a b : ℝ) :
    projection (V3.mk a b 0) (V3.mk 0 0 1) = V3.mk a b 0 := by
  simp [projection, V3.dot, V3.squaredNorm, V3.sub, V3.smul, V3.mk.injEq]

/-- Claim C6 (amended): in the 5-point coplanar scenario with radius `3/2` and
the flat-disc kernel, the center sample `(0,0,0)` gets the zero curvature
vector (its in-ball neighbors cancel by symmetry); the boundary samples do
not, as the counterexample at sample `(1,0,0)` shows. -/
theorem C6_center_zero :
    (computeLocalCurvature planePts planeNs (3 / 2)
        DistributionType.FlatDisc).getD 0 V3.zero = V3.zero := by
  have hW : (0 : ℝ) < 3 / (4 * Real.pi) := by positivity
  have ep0 : planePts.getD 0 V3.zero = (⟨0, 0, 0⟩ : V3) := rfl
  have ep1 : planePts.getD 1 V3.zero = (⟨1, 0, 0⟩ : V3) := rfl
  have ep2 : planePts.getD 2 V3.zero = (⟨0, 1, 0⟩ : V3) := rfl
  have ep3 : planePts.getD 3 V3.zero = (⟨-1, 0, 0⟩ : V3) := rfl
  have ep4 : planePts.getD 4 V3.zero = (⟨0, -1, 0⟩ : V3) := rfl
  have en1 : planeNs.getD 1 V3.zero = (⟨0, 0, 1⟩ : V3) := rfl
  have en2 : planeNs.getD 2 V3.zero = (⟨0, 0, 1⟩ : V3) := rfl
  have en3 : planeNs.getD 3 V3.zero = (⟨0, 0, 1⟩ : V3) := rfl
  have en4 : planeNs.getD 4 V3.zero = (⟨0, 0, 1⟩ : V3) := rfl
  have hn1 : (V3.mk 1 0 0).norm = 1 := by
    rw [V3.norm_val 1 0 0 1 (by norm_num), Real.sqrt_one]
  have hn2 : (V3.mk 0 1 0).norm = 1 := by
    rw [V3.norm_val 0 1 0 1 (by norm_num), Real.sqrt_one]
  have hn3 : (V3.mk (-1) 0 0).norm = 1 := by
    rw [V3.norm_val (-1) 0 0 1 (by norm_num), Real.sqrt_one]
  have hn4 : (V3.mk 0 (-1) 0).norm = 1 := by
    rw [V3.norm_val 0 (-1) 0 1 (by norm_num), Real.sqrt_one]
  have hw01 : weightOf planePts (3 / 2) DistributionType.FlatDisc 0 1
      = 3 / (4 * Real.pi) := by
    unfold weightOf
    rw [ep0, ep1, show V3.sub (⟨0, 0, 0⟩ : V3) (⟨1, 0, 0⟩ : V3) = V3.mk (-1) 0 0 from
        by norm_num [V3.sub, V3.mk.injEq], hn3,
      if_pos (by norm_num : (1 : ℝ) < 3 / 2)]
    rfl
  have hw02 : weightOf planePts (3 / 2) DistributionType.FlatDisc 0 2
      = 3 / (4 * Real.pi) := by
    unfold weightOf
    rw [ep0, ep2, show V3.sub (⟨0, 0, 0⟩ : V3) (⟨0, 1, 0⟩ : V3) = V3.mk 0 (-1) 0 from
        by norm_num [V3.sub, V3.mk.injEq], hn4,
      if_pos (by norm_num : (1 : ℝ) < 3 / 2)]
    rfl
  have hw03 : weightOf planePts (3 / 2) DistributionType.FlatDisc 0 3
      = 3 / (4 * Real.pi) := by
    unfold weightOf
    rw [ep0, ep3, show V3.sub (⟨0, 0, 0⟩ : V3) (⟨-1, 0, 0⟩ : V3) = V3.mk 1 0 0 from
        by norm_num [V3.sub, V3.mk.injEq], hn1,
      if_pos (by norm_num : (1 : ℝ) < 3 / 2)]
    rfl
  have hw04 : weightOf planePts (3 / 2) DistributionType.FlatDisc 0 4
      = 3 / (4 * Real.pi) := by
    unfold weightOf
    rw [ep0, ep4, show V3.sub (⟨0, 0, 0⟩ : V3) (⟨0, -1, 0⟩ : V3) = V3.mk 0 1 0 from
        by norm_num [V3.sub, V3.mk.injEq], hn2,
      if_pos (by norm_num : (1 : ℝ) < 3 / 2)]
    rfl
  have hct00 : curvatureTerm planePts planeNs (3 / 2) DistributionType.FlatDisc 0 0
      = V3.zero := by
    simp [curvatureTerm]
  have hct01 : curvatureTerm planePts planeNs (3 / 2) DistributionType.FlatDisc 0 1
      = V3.mk (3 / (4 * Real.pi) * 1 / 1) (3 / (4 * Real.pi) * 0 / 1)
          (3 / (4 * Real.pi) * 0 / 1) := by
    unfold curvatureTerm
    rw [hw01, if_pos (⟨hW, by norm_num⟩ : (0 : ℝ) < 3 / (4 * Real.pi) ∧ (1 : ℕ) ≠ 0),
      ep1, ep0, show V3.sub (⟨1, 0, 0⟩ : V3) (⟨0, 0, 0⟩ : V3) = V3.mk 1 0 0 from
        by norm_num [V3.sub, V3.mk.injEq], en1, projection_xy 1 0, hn1]
    rfl
  have hct02 : curvatureTerm planePts planeNs (3 / 2) DistributionType.FlatDisc 0 2
      = V3.mk (3 / (4 * Real.pi) * 0 / 1) (3 / (4 * Real.pi) * 1 / 1)
          (3 / (4 * Real.pi) * 0 / 1) := by
    unfold curvatureTerm
    rw [hw02, if_pos (⟨hW, by norm_num⟩ : (0 : ℝ) < 3 / (4 * Real.pi) ∧ (2 : ℕ) ≠ 0),
      ep2, ep0, show V3.sub (⟨0, 1, 0⟩ : V3) (⟨0, 0, 0⟩ : V3) = V3.mk 0 1 0 from
        by norm_num [V3.sub, V3.mk.injEq], en2, projection_xy 0 1, hn2]
    rfl
  have hct03 : curvatureTerm planePts planeNs (3 / 2) DistributionType.FlatDisc 0 3
      = V3.mk (3 / (4 * Real.pi) * (-1) / 1) (3 / (4 * Real.pi) * 0 / 1)
          (3 / (4 * Real.pi) * 0 / 1) := by
    unfold curvatureTerm
    rw [hw03, if_pos (⟨hW, by norm_num⟩ : (0 : ℝ) < 3 / (4 * Real.pi) ∧ (3 : ℕ) ≠ 0),
      ep3, ep0, show V3.sub (⟨-1, 0, 0⟩ : V3) (⟨0, 0, 0⟩ : V3) = V3.mk (-1) 0 0 from
        by norm_num [V3.sub, V3.mk.injEq], en3, projection_xy (-1) 0, hn3]
    rfl
  have hct04 : curvatureTerm planePts planeNs (3 / 2) DistributionType.FlatDisc 0 4
      = V3.mk (3 / (4 * Real.pi) * 0 / 1) (3 / (4 * Real.pi) * (-1) / 1)
          (3 / (4 * Real.pi) * 0 / 1) := by
    unfold curvatureTerm
    rw [hw04, if_pos (⟨hW, by norm_num⟩ : (0 : ℝ) < 3 / (4 * Real.pi) ∧ (4 : ℕ) ≠ 0),
      ep4, ep0, show V3.sub (⟨0, -1, 0⟩ : V3) (⟨0, 0, 0⟩ : V3) = V3.mk 0 (-1) 0 from
        by norm_num [V3.sub, V3.mk.injEq], en4, projection_xy 0 (-1), hn4]
    rfl
  have hnum0 : specNumerator planePts planeNs (3 / 2) DistributionType.FlatDisc 0
      = V3.zero := by
    show ∑ g ∈ Finset.range 5,
        curvatureTerm planePts planeNs (3 / 2) DistributionType.FlatDisc 0 g = V3.zero
    simp only [Finset.sum_range_succ, Finset.sum_range_zero]
    rw [hct00, hct01, hct02, hct03, hct04]
    simp only [V3.zero_def, V3.zero, V3.add_def, V3.add, V3.mk.injEq]
    refine ⟨?_, ?_, ?_⟩ <;> ring
  rw [computeLocalCurvature_getD planePts planeNs (3 / 2) DistributionType.FlatDisc 0
      (by simp [planePts]), curvatureAt_eq, hnum0, V3.negZero_divScalar]

/-- Counterexample to C6 as stated: in the 5-point coplanar scenario the
boundary sample `(1,0,0)` (index 1) does not get the zero curvature vector —
its in-ball neighbors `(0,0,0)`, `(0,1,0)`, `(0,-1,0)` all pull in the `-x`
direction, giving the curvature vector `((1+√2)/6, 0, 0)` up to the kernel
normalization. -/
theorem C6_counterexample :
    (computeLocalCurvature planePts planeNs (3 / 2)
        DistributionType.FlatDisc).getD 1 V3.zero ≠ V3.zero := by
  have hW : (0 : ℝ) < 3 / (4 * Real.pi) := by positivity
  have hs2 : (0 : ℝ) < Real.sqrt 2 := Real.sqrt_pos.mpr (by norm_num)
  have hs2lt : Real.sqrt 2 < 3 / 2 := by
    rw [show (3 : ℝ) / 2 = Real.sqrt ((3 / 2) ^ 2) from
        (Real.sqrt_sq (by norm_num)).symm]
    exact Real.sqrt_lt_sqrt (by norm_num) (by norm_num)
  have hs4 : Real.sqrt 4 = 2 := by
    rw [show (4 : ℝ) = 2 ^ 2 by norm_num, Real.sqrt_sq (by norm_num : (0 : ℝ) ≤ 2)]
  have ep0 : planePts.getD 0 V3.zero = (⟨0, 0, 0⟩ : V3) := rfl
  have ep1 : planePts.getD 1 V3.zero = (⟨1, 0, 0⟩ : V3) := rfl
  have ep2 : planePts.getD 2 V3.zero = (⟨0, 1, 0⟩ : V3) := rfl
  have ep3 : planePts.getD 3 V3.zero = (⟨-1, 0, 0⟩ : V3) := rfl
  have ep4 : planePts.getD 4 V3.zero = (⟨0, -1, 0⟩ : V3) := rfl
  have en0 : planeNs.getD 0 V3.zero = (⟨0, 0, 1⟩ : V3) := rfl
  have en2 : planeNs.getD 2 V3.zero = (⟨0, 0, 1⟩ : V3) := rfl
  have en4 : planeNs.getD 4 V3.zero = (⟨0, 0, 1⟩ : V3) := rfl
  have hn100 : (V3.mk 1 0 0).norm = 1 := by
    rw [V3.norm_val 1 0 0 1 (by norm_num), Real.sqrt_one]
  have hnm100 : (V3.mk (-1) 0 0).norm = 1 := by
    rw [V3.norm_val (-1) 0 0 1 (by norm_num), Real.sqrt_one]
  have hn1m10 : (V3.mk 1 (-1) 0).norm = Real.sqrt 2 :=
    V3.norm_val 1 (-1) 0 2 (by norm_num)
  have hnm110 : (V3.mk (-1) 1 0).norm = Real.sqrt 2 :=
    V3.norm_val (-1) 1 0 2 (by norm_num)
  have hn110 : (V3.mk 1 1 0).norm = Real.sqrt 2 :=
    V3.norm_val 1 1 0 2 (by norm_num)
  have hnm1m10 : (V3.mk (-1) (-1) 0).norm = Real.sqrt 2 :=
    V3.norm_val (-1) (-1) 0 2 (by norm_num)
  have hn200 : (V3.mk 2 0 0).norm = 2 := by
    rw [V3.norm_val 2 0 0 4 (by norm_num), hs4]
  have hw10 : weightOf planePts (3 / 2) DistributionType.FlatDisc 1 0
      = 3 / (4 * Real.pi) := by
    unfold weightOf
    rw [ep1, ep0, show V3.sub (⟨1, 0, 0⟩ : V3) (⟨0, 0, 0⟩ : V3) = V3.mk 1 0 0 from
        by norm_num [V3.sub, V3.mk.injEq], hn100,
      if_pos (by norm_num : (1 : ℝ) < 3 / 2)]
    rfl
  have hw12 : weightOf planePts (3 / 2) DistributionType.FlatDisc 1 2
      = 3 / (4 * Real.pi) := by
    unfold weightOf
    rw [ep1, ep2, show V3.sub (⟨1, 0, 0⟩ : V3) (⟨0, 1, 0⟩ : V3) = V3.mk 1 (-1) 0 from
        by norm_num [V3.sub, V3.mk.injEq], hn1m10, if_pos hs2lt]
    rfl
  have hw13 : weightOf planePts (3 / 2) DistributionType.FlatDisc 1 3 = 0 := by
    unfold weightOf
    rw [ep1, ep3, show V3.sub (⟨1, 0, 0⟩ : V3) (⟨-1, 0, 0⟩ : V3) = V3.mk 2 0 0 from
        by norm_num [V3.sub, V3.mk.injEq], hn200]
    exact if_neg (by norm_num)
  have hw14 : weightOf planePts (3 / 2) DistributionType.FlatDisc 1 4
      = 3 / (4 * Real.pi) := by
    unfold weightOf
    rw [ep1, ep4, show V3.sub (⟨1, 0, 0⟩ : V3) (⟨0, -1, 0⟩ : V3) = V3.mk 1 1 0 from
        by norm_num [V3.sub, V3.mk.injEq], hn110, if_pos hs2lt]
    rfl
  have hw11 : weightOf planePts (3 / 2) DistributionType.FlatDisc 1 1
      = 3 / (4 * Real.pi) := by
    rw [weightOf_self planePts (3 / 2) DistributionType.FlatDisc 1 (by norm_num)]
    rfl
  have hct10 : curvatureTerm planePts planeNs (3 / 2) DistributionType.FlatDisc 1 0
      = V3.mk (3 / (4 * Real.pi) * (-1) / 1) (3 / (4 * Real.pi) * 0 / 1)
          (3 / (4 * Real.pi) * 0 / 1) := by
    unfold curvatureTerm
    rw [hw10, if_pos (⟨hW, by norm_num⟩ : (0 : ℝ) < 3 / (4 * Real.pi) ∧ (0 : ℕ) ≠ 1),
      ep0, ep1, show V3.sub (⟨0, 0, 0⟩ : V3) (⟨1, 0, 0⟩ : V3) = V3.mk (-1) 0 0 from
        by norm_num [V3.sub, V3.mk.injEq], en0, projection_xy (-1) 0, hnm100]
    rfl
  have hct11 : curvatureTerm planePts planeNs (3 / 2) DistributionType.FlatDisc 1 1
      = V3.zero := by
    simp [curvatureTerm]
  have hct12 : curvatureTerm planePts planeNs (3 / 2) DistributionType.FlatDisc 1 2
      = V3.mk (3 / (4 * Real.pi) * (-1) / Real.sqrt 2)
          (3 / (4 * Real.pi) * 1 / Real.sqrt 2)
          (3 / (4 * Real.pi) * 0 / Real.sqrt 2) := by
    unfold curvatureTerm
    rw [hw12, if_pos (⟨hW, by norm_num⟩ : (0 : ℝ) < 3 / (4 * Real.pi) ∧ (2 : ℕ) ≠ 1),
      ep2, ep1, show V3.sub (⟨0, 1, 0⟩ : V3) (⟨1, 0, 0⟩ : V3) = V3.mk (-1) 1 0 from
        by norm_num [V3.sub, V3.mk.injEq], en2, projection_xy (-1) 1, hnm110]
    rfl
  have hct13 : curvatureTerm planePts planeNs (3 / 2) DistributionType.FlatDisc 1 3
      = V3.zero := by
    unfold curvatureTerm
    rw [hw13]
    simp
  have hct14 : curvatureTerm planePts planeNs (3 / 2) DistributionType.FlatDisc 1 4
      = V3.mk (3 / (4 * Real.pi) * (-1) / Real.sqrt 2)
          (3 / (4 * Real.pi) * (-1) / Real.sqrt 2)
          (3 / (4 * Real.pi) * 0 / Real.sqrt 2) := by
    unfold curvatureTerm
    rw [hw14, if_pos (⟨hW, by norm_num⟩ : (0 : ℝ) < 3 / (4 * Real.pi) ∧ (4 : ℕ) ≠ 1),
      ep4, ep1, show V3.sub (⟨0, -1, 0⟩ : V3) (⟨1, 0, 0⟩ : V3) = V3.mk (-1) (-1) 0 from
        by norm_num [V3.sub, V3.mk.injEq], en4, projection_xy (-1) (-1), hnm1m10]
    rfl
  have hnum1 : specNumerator planePts planeNs (3 / 2) DistributionType.FlatDisc 1
      = V3.mk (-(3 / (4 * Real.pi)) - 2 * (3 / (4 * Real.pi)) / Real.sqrt 2) 0 0 := by
    show ∑ g ∈ Finset.range 5,
        curvatureTerm planePts planeNs (3 / 2) DistributionType.FlatDisc 1 g = _
    simp only [Finset.sum_range_succ, Finset.sum_range_zero]
    rw [hct10, hct11, hct12, hct13, hct14]
    simp only [V3.zero_def, V3.zero, V3.add_def, V3.add, V3.mk.injEq]
    refine ⟨?_, ?_, ?_⟩ <;> ring
  have hden1 : specDenominator planePts (3 / 2) DistributionType.FlatDisc 1
      = 4 * (3 / (4 * Real.pi)) := by
    show ∑ g ∈ Finset.range 5,
        weightTerm planePts (3 / 2) DistributionType.FlatDisc 1 g = _
    simp only [Finset.sum_range_succ, Finset.sum_range_zero]
    unfold weightTerm
    rw [hw10, hw11, hw12, hw13, hw14, if_pos hW, if_neg (lt_irrefl (0 : ℝ))]
    ring
  have hkey : (computeLocalCurvature planePts planeNs (3 / 2)
        DistributionType.FlatDisc).getD 1 V3.zero
      = V3.mk ((3 / (4 * Real.pi) + 2 * (3 / (4 * Real.pi)) / Real.sqrt 2)
          / (4 * (3 / (4 * Real.pi)) * (3 / 2))) 0 0 := by
    rw [computeLocalCurvature_getD planePts planeNs (3 / 2) DistributionType.FlatDisc 1
        (by simp [planePts]), curvatureAt_eq, hnum1, hden1]
    simp only [V3.neg, V3.divScalar, V3.mk.injEq]
    refine ⟨?_, ?_, ?_⟩ <;> ring
  rw [hkey]
  intro hcontra
  have hx := congrArg V3.x hcontra
  simp only [V3.zero] at hx
  have hpos : 0 < (3 / (4 * Real.pi) + 2 * (3 / (4 * Real.pi)) / Real.sqrt 2)
      / (4 * (3 / (4 * Real.pi)) * (3 / 2)) := by
    positivity
  exact absurd hx (ne_of_gt hpos)
